import Mathlib

/-!
# Verification of the DeepMindChess client (src/main.py)

`src/main.py` is a socket.io chess client: it keeps one `chess.Board()`,
defines handler functions (`connect`, `on_player_role`, `on_boardstate`,
`on_move`, `make_moves`, ...) and connects to a server.  This file gives a
shallow embedding of that script together with the behaviour of the
python-chess library operations it uses (`Board.set_fen`, `Board.push`,
`Board.legal_moves`, `Board.is_game_over`, `Move.from_uci`, `Move.uci`)
and of `random.choice`, and proves/refutes the specification's claims.

Conventions mirrored from python-chess:
* squares are `0..63`, `a1 = 0`, `h1 = 7`, `a8 = 56`, `h8 = 63`;
* `file = sq % 8`, `rank = sq / 8`;
* colors are `Bool`, `true = WHITE`;
* bitboards (castling rights, promoted pieces) are `Nat` with bit `sq`
  standing for square `sq`.
-/

set_option maxRecDepth 8000

namespace DeepMindChess

/-- Piece kinds, as in python-chess (`PAWN .. KING`). -/
inductive PieceType
  | pawn | knight | bishop | rook | queen | king
deriving DecidableEq, Repr

/-- A piece: kind plus color (`true` = white, as python-chess `WHITE = True`). -/
structure Piece where
  pt : PieceType
  color : Bool
deriving DecidableEq, Repr

/-- File (0..7) of a square, python-chess `square_file`. -/
def sqFile (sq : Nat) : Nat := sq % 8

/-- Rank (0..7) of a square, python-chess `square_rank`. -/
def sqRank (sq : Nat) : Nat := sq / 8

/-- Step from a square by a (file, rank) delta; `none` when off the board.
Models the implicit edge handling of python-chess's precomputed attack
tables. -/
def shiftSq (sq : Nat) (df dr : Int) : Option Nat :=
  let f : Int := (sqFile sq : Int) + df
  let r : Int := (sqRank sq : Int) + dr
  if 0 ≤ f ∧ f < 8 ∧ 0 ≤ r ∧ r < 8 then some (r * 8 + f).toNat else none

/-- Bit for a square in a `Nat` bitboard (python-chess `BB_SQUARES[sq]`). -/
def bb (sq : Nat) : Nat := 1 <<< sq

/-- Bitboard AND-NOT (`a & ~b` on python's 64-bit masks). -/
def natAndNot (a b : Nat) : Nat := a - (a &&& b)

/-- python-chess `BB_RANK_1`. -/
def rank1Mask : Nat := 0xFF

/-- python-chess `BB_RANK_8`. -/
def rank8Mask : Nat := 0xFF <<< 56

/-- The position data held by a python-chess `Board` apart from the move
stacks: piece placement, side to move, castling rights (bitboard of rook
squares), en-passant square, half-move clock, full-move number and the
bitboard of promoted pieces.  This is exactly what `_BoardState` snapshots
on `push`. -/
structure BoardCore where
  squares : List (Option Piece)   -- index = square 0..63
  turn : Bool
  castlingRights : Nat
  epSquare : Option Nat
  halfmoveClock : Nat
  fullmoveNumber : Nat
  promoted : Nat
deriving DecidableEq, Repr

/-- A move, python-chess `Move`: origin, destination, optional promotion
piece.  (Drops do not occur in this client and are not modelled.) -/
structure Move where
  fromSq : Nat
  toSq : Nat
  promo : Option PieceType
deriving DecidableEq, Repr

/-- A python-chess `Board`: the position plus `move_stack` and `_stack`
(the snapshots used by `pop`).  Most recent entries first. -/
structure Board where
  core : BoardCore
  moveStack : List Move
  stateStack : List BoardCore
deriving DecidableEq, Repr

/-- python-chess null move test: `Move.__bool__` is false iff both squares
are 0 and there is no promotion. -/
def Move.isNull (m : Move) : Bool :=
  m.fromSq == 0 && m.toSq == 0 && m.promo == none

/-- Piece at a square (`none` when empty or out of range). -/
def pieceAt (c : BoardCore) (sq : Nat) : Option Piece :=
  (c.squares.getD sq none)

/-- Bitboard of the squares satisfying a predicate on the piece there. -/
def bbOf (c : BoardCore) (p : Nat → Piece → Bool) : Nat :=
  (List.range 64).foldl
    (fun acc sq =>
      match pieceAt c sq with
      | some pc => if p sq pc then acc ||| bb sq else acc
      | none => acc) 0

/-- Occupancy of one color (python-chess `occupied_co[color]`). -/
def occupiedCoBB (c : BoardCore) (color : Bool) : Nat :=
  bbOf c (fun _ pc => pc.color == color)

/-- Bitboard of all pieces of a kind, both colors (python-chess `rooks`,
`kings`, ...). -/
def pieceTypeBB (c : BoardCore) (t : PieceType) : Nat :=
  bbOf c (fun _ pc => pc.pt == t)

/-- Remove the piece at a square, clearing its promoted bit
(python-chess `_remove_piece_at`). -/
def removePieceAt (c : BoardCore) (sq : Nat) : BoardCore :=
  { c with squares := c.squares.set sq none,
           promoted := natAndNot c.promoted (bb sq) }

/-- Put a piece on a square, replacing any occupant and setting the
promoted bit as requested (python-chess `_set_piece_at`). -/
def setPieceAt (c : BoardCore) (sq : Nat) (t : PieceType) (color : Bool)
    (isPromoted : Bool) : BoardCore :=
  { c with squares := c.squares.set sq (some ⟨t, color⟩),
           promoted :=
             if isPromoted then natAndNot c.promoted (bb sq) ||| bb sq
             else natAndNot c.promoted (bb sq) }

/-- Knight move deltas. -/
def knightDeltas : List (Int × Int) :=
  [(1, 2), (2, 1), (2, -1), (1, -2), (-1, -2), (-2, -1), (-2, 1), (-1, 2)]

/-- King move deltas. -/
def kingDeltas : List (Int × Int) :=
  [(1, 0), (1, 1), (0, 1), (-1, 1), (-1, 0), (-1, -1), (0, -1), (1, -1)]

/-- Bishop ray directions. -/
def bishopDirs : List (Int × Int) := [(1, 1), (1, -1), (-1, 1), (-1, -1)]

/-- Rook ray directions. -/
def rookDirs : List (Int × Int) := [(1, 0), (-1, 0), (0, 1), (0, -1)]

/-- Walk a sliding ray from a square: every empty square passed plus the
first occupied square (which may then be checked for capture).  Fuel-based;
7 steps suffice on an 8×8 board. -/
def rayGo (c : BoardCore) (d : Int × Int) : Nat → Nat → List Nat
  | _, 0 => []
  | cur, fuel + 1 =>
    match shiftSq cur d.1 d.2 with
    | none => []
    | some t =>
      if (pieceAt c t).isSome then [t] else t :: rayGo c d t fuel

/-- Squares reachable along one ray (python-chess sliding attack with the
current occupancy as blockers). -/
def rayTargets (c : BoardCore) (sq : Nat) (d : Int × Int) : List Nat :=
  rayGo c d sq 7

/-- The squares attacked by a given piece standing on `sq`
(python-chess `attacks_mask` semantics, with the current occupancy as
blockers; for pawns these are just the two capture squares). -/
def attackSquares (c : BoardCore) (sq : Nat) (p : Piece) : List Nat :=
  match p.pt with
  | .knight => knightDeltas.filterMap (fun d => shiftSq sq d.1 d.2)
  | .king => kingDeltas.filterMap (fun d => shiftSq sq d.1 d.2)
  | .pawn =>
    (if p.color then [(-1, 1), (1, 1)] else [(-1, -1), (1, -1)]
      : List (Int × Int)).filterMap (fun d => shiftSq sq d.1 d.2)
  | .bishop => bishopDirs.flatMap (rayTargets c sq)
  | .rook => rookDirs.flatMap (rayTargets c sq)
  | .queen => (rookDirs ++ bishopDirs).flatMap (rayTargets c sq)

/-- Is `target` attacked by any piece of `color`?
(python-chess `is_attacked_by`). -/
def isAttackedBy (c : BoardCore) (color : Bool) (target : Nat) : Bool :=
  (List.range 64).any fun sq =>
    match pieceAt c sq with
    | some p => p.color == color && (attackSquares c sq p).contains target
    | none => false

/-- The square of the king of a color: python-chess `king(color)` takes the
most significant bit of the unpromoted kings of that color, `none` when
there is no such king. -/
def kingSquare (c : BoardCore) (color : Bool) : Option Nat :=
  ((List.range 64).filter fun sq =>
    (match pieceAt c sq with
     | some p => p.pt == .king && p.color == color
     | none => false) && !(c.promoted.testBit sq)).getLast?

/-- Does a color have any king on the board (python-chess
`kings & occupied_co[color]`, promoted kings included — this is the check
`generate_legal_moves` makes)? -/
def hasKing (c : BoardCore) (color : Bool) : Bool :=
  (List.range 64).any fun sq =>
    match pieceAt c sq with
    | some p => p.pt == .king && p.color == color
    | none => false

/-- python-chess `clean_castling_rights` for a standard (non-960) board:
once a move has been pushed the stored rights are trusted; otherwise the
rights are filtered to rooks of the right color actually standing on
a1/h1 (resp. a8/h8) with an unpromoted king of that color on e1 (resp.
e8). -/
def cleanCastlingRights (b : Board) : Nat :=
  if !b.stateStack.isEmpty then b.core.castlingRights
  else
    let c := b.core
    let castling := c.castlingRights &&& pieceTypeBB c .rook
    let wC := castling &&& rank1Mask &&& occupiedCoBB c true &&& (bb 0 ||| bb 7)
    let bC := castling &&& rank8Mask &&& occupiedCoBB c false &&& (bb 56 ||| bb 63)
    let wKingOk :=
      (match pieceAt c 4 with
       | some p => p.pt == .king && p.color == true
       | none => false) && !(c.promoted.testBit 4)
    let bKingOk :=
      (match pieceAt c 60 with
       | some p => p.pt == .king && p.color == false
       | none => false) && !(c.promoted.testBit 60)
    (if wKingOk then wC else 0) ||| (if bKingOk then bC else 0)

/-- python-chess `_to_chess960`: a two-file king move from its home square
is rewritten to the king-takes-rook form used internally (promotion field
dropped, as in the source). -/
def toChess960 (c : BoardCore) (m : Move) : Move :=
  let kings := pieceTypeBB c .king
  let rooks := pieceTypeBB c .rook
  if m.fromSq == 4 && kings.testBit 4 then
    if m.toSq == 6 && !rooks.testBit 6 then ⟨4, 7, none⟩
    else if m.toSq == 2 && !rooks.testBit 2 then ⟨4, 0, none⟩
    else m
  else if m.fromSq == 60 && kings.testBit 60 then
    if m.toSq == 62 && !rooks.testBit 62 then ⟨60, 63, none⟩
    else if m.toSq == 58 && !rooks.testBit 58 then ⟨60, 56, none⟩
    else m
  else m

/-- python-chess `_from_chess960` on a standard board: the internal
king-takes-rook castling form is written back as the two-file king move. -/
def fromChess960 (c : BoardCore) (f t : Nat) (promo : Option PieceType) : Move :=
  if promo == none then
    let kings := pieceTypeBB c .king
    if f == 4 && kings.testBit 4 then
      if t == 7 then ⟨4, 6, none⟩
      else if t == 0 then ⟨4, 2, none⟩
      else ⟨f, t, promo⟩
    else if f == 60 && kings.testBit 60 then
      if t == 63 then ⟨60, 62, none⟩
      else if t == 56 then ⟨60, 58, none⟩
      else ⟨f, t, promo⟩
    else ⟨f, t, promo⟩
  else ⟨f, t, promo⟩

/-- python-chess `is_zeroing`: a pawn move (pawn of either color on the
origin) or a capture of an enemy piece. -/
def isZeroing (c : BoardCore) (m : Move) : Bool :=
  (match pieceAt c m.fromSq with
   | some p => p.pt == .pawn
   | none => false) ||
  (match pieceAt c m.toSq with
   | some p => p.color == !c.turn
   | none => false)

/-- The bookkeeping `push` performs before examining the move, common to
every outcome: castling rights cleaned, en-passant square reset, half-move
clock incremented, full-move number incremented after Black's move. -/
def pushPrep (b : Board) : BoardCore :=
  { b.core with castlingRights := cleanCastlingRights b, epSquare := none,
                halfmoveClock := b.core.halfmoveClock + 1,
                fullmoveNumber :=
                  if b.core.turn then b.core.fullmoveNumber
                  else b.core.fullmoveNumber + 1 }

/-- `pushPrep` plus the half-move-clock zeroing for zeroing moves. -/
def pushPrep2 (b : Board) (m' : Move) : BoardCore :=
  if isZeroing b.core m' then { pushPrep b with halfmoveClock := 0 }
  else pushPrep b

/-- The board effects of a successful non-null `push` (everything from the
origin piece being picked up to the piece landing), without the final turn
swap. -/
def pushApply (b : Board) (m' : Move) (piece : Piece) : BoardCore :=
  let c0 := b.core
  let c3 := removePieceAt (pushPrep2 b m') m'.fromSq
  let wasPromoted := c0.promoted.testBit m'.fromSq
  let cr2 := natAndNot c3.castlingRights (bb m'.toSq ||| bb m'.fromSq)
  let cr3 :=
    if piece.pt == .king && !wasPromoted then
      natAndNot cr2 (if c0.turn then rank1Mask else rank8Mask)
    else cr2
  let c4 := { c3 with castlingRights := cr3 }
  let capturedAtTo := pieceAt c4 m'.toSq
  let c5 :=
    if piece.pt == .pawn then
      if m'.toSq == m'.fromSq + 16 && sqRank m'.fromSq == 1 then
        { c4 with epSquare := some (m'.fromSq + 8) }
      else if m'.fromSq == m'.toSq + 16 && sqRank m'.fromSq == 6 then
        { c4 with epSquare := some (m'.fromSq - 8) }
      else if c0.epSquare == some m'.toSq
          && (m'.toSq + 7 == m'.fromSq || m'.fromSq + 7 == m'.toSq
              || m'.toSq + 9 == m'.fromSq || m'.fromSq + 9 == m'.toSq)
          && capturedAtTo == none then
        removePieceAt c4 (if c0.turn then m'.toSq - 8 else m'.toSq + 8)
      else c4
    else c4
  let pieceF : PieceType :=
    match m'.promo with
    | some pt => pt
    | none => piece.pt
  let promotedFlag := wasPromoted || m'.promo.isSome
  let isCastling :=
    pieceF == .king &&
      (match pieceAt c5 m'.toSq with
       | some q => q.color == c0.turn
       | none => false)
  if isCastling then
    let base := if c0.turn then 0 else 56
    let aSide := sqFile m'.toSq < sqFile m'.fromSq
    let c6 := removePieceAt (removePieceAt c5 m'.fromSq) m'.toSq
    if aSide then
      setPieceAt (setPieceAt c6 (base + 2) .king c0.turn false)
        (base + 3) .rook c0.turn false
    else
      setPieceAt (setPieceAt c6 (base + 6) .king c0.turn false)
        (base + 5) .rook c0.turn false
  else
    setPieceAt c5 m'.toSq pieceF c0.turn promotedFlag

/-- The move recorded on `move_stack` (converted back to standard form). -/
def pushStackMove (b : Board) (m' : Move) : Move :=
  fromChess960 b.core m'.fromSq m'.toSq m'.promo

/-- python-chess `Board.push`.  Mirrors the source's order of effects:
the move is converted to the internal castling form, the stacks are
extended and the bookkeeping of `pushPrep` applied; a null move then just
swaps the turn; otherwise the half-move clock is zeroed for zeroing moves
(`pushPrep2`) and the piece is taken off the origin square — if the origin
is empty this is where the source's `assert` fires, with the earlier
mutations already performed (the second component carries the raised
error); otherwise `pushApply` moves the piece (castling-rights update,
en-passant bookkeeping, promotion, castling rook movement) and the turn is
swapped.  `push` never checks that the move is legal.  The model assumes
the en-passant square is off rank 1 when White captures en passant (a
negative python index otherwise). -/
def Board.push (m : Move) (b : Board) : Board × Option String :=
  if (toChess960 b.core m).isNull then
    (⟨{ pushPrep b with turn := !b.core.turn },
      pushStackMove b (toChess960 b.core m) :: b.moveStack,
      b.core :: b.stateStack⟩, none)
  else
    match pieceAt b.core (toChess960 b.core m).fromSq with
    | none =>
      (⟨pushPrep2 b (toChess960 b.core m),
        pushStackMove b (toChess960 b.core m) :: b.moveStack,
        b.core :: b.stateStack⟩,
       some "AssertionError: push() expects move to be pseudo-legal")
    | some piece =>
      (⟨{ pushApply b (toChess960 b.core m) piece with turn := !b.core.turn },
        pushStackMove b (toChess960 b.core m) :: b.moveStack,
        b.core :: b.stateStack⟩, none)

/-- python-chess `Board.pop`: restore the previous snapshot and return the
popped move; `none` on an empty stack. -/
def Board.pop (b : Board) : Option (Board × Move) :=
  match b.moveStack, b.stateStack with
  | m :: ms, c :: cs => some (⟨c, ms, cs⟩, m)
  | _, _ => none

/-- A pawn move to `t`, expanded into the four promotions when `t` is on
the back rank (python's generator yields queen, rook, bishop, knight). -/
def promoExpandMoves (sq t : Nat) : List Move :=
  if sqRank t == 0 || sqRank t == 7 then
    [⟨sq, t, some .queen⟩, ⟨sq, t, some .rook⟩,
     ⟨sq, t, some .bishop⟩, ⟨sq, t, some .knight⟩]
  else [⟨sq, t, none⟩]

/-- The capture targets of a pawn of `color` on `sq`: attacked squares
holding an enemy piece. -/
def pawnCaptureTargets (c : BoardCore) (sq : Nat) (color : Bool) : List Nat :=
  (attackSquares c sq ⟨.pawn, color⟩).filterMap fun t =>
    match pieceAt c t with
    | some q => if q.color == color then none else some t
    | none => none

/-- Single-push target of a pawn (empty square one step ahead). -/
def pawnSingleTargets (c : BoardCore) (sq : Nat) (color : Bool) : List Nat :=
  if color then
    if sq + 8 < 64 && (pieceAt c (sq + 8)).isNone then [sq + 8] else []
  else
    if 8 ≤ sq && (pieceAt c (sq - 8)).isNone then [sq - 8] else []

/-- Double-push target of a pawn: both squares ahead empty and the target
on rank 3/4 (White) resp. 6/5 (Black), as the source's rank masks
enforce. -/
def pawnDoubleTargets (c : BoardCore) (sq : Nat) (color : Bool) : List Nat :=
  if color then
    if sq + 16 < 64 && (pieceAt c (sq + 8)).isNone && (pieceAt c (sq + 16)).isNone
        && (sqRank (sq + 16) == 2 || sqRank (sq + 16) == 3) then [sq + 16] else []
  else
    if 16 ≤ sq && (pieceAt c (sq - 8)).isNone && (pieceAt c (sq - 16)).isNone
        && (sqRank (sq - 16) == 4 || sqRank (sq - 16) == 5) then [sq - 16] else []

/-- Pseudo-legal moves of a pawn of `color` standing on `sq`: captures of
enemy pieces on the attacked squares, then single and double pushes onto
empty squares. -/
def pawnMoveList (c : BoardCore) (sq : Nat) (color : Bool) : List Move :=
  (pawnCaptureTargets c sq color).flatMap (promoExpandMoves sq)
    ++ (pawnSingleTargets c sq color).flatMap (promoExpandMoves sq)
    ++ (pawnDoubleTargets c sq color).map fun t => ⟨sq, t, none⟩

/-- Pseudo-legal moves of one piece: for non-pawns the attacked squares
not occupied by a piece of the side to move; for pawns `pawnMoveList`. -/
def pieceMoveList (c : BoardCore) (sq : Nat) (p : Piece) : List Move :=
  match p.pt with
  | .pawn => pawnMoveList c sq p.color
  | _ =>
    (attackSquares c sq p).filterMap fun t =>
      match pieceAt c t with
      | some q => if q.color == c.turn then none else some ⟨sq, t, none⟩
      | none => some ⟨sq, t, none⟩

/-- All pseudo-legal non-castling, non-en-passant moves of the side to
move (python-chess `generate_pseudo_legal_moves` without the castling and
en-passant parts; enumeration order differs from the source's bitboard
scan order, which nothing here depends on). -/
def pseudoLegalNormalMoves (c : BoardCore) : List Move :=
  (List.range 64).flatMap fun sq =>
    match pieceAt c sq with
    | some p => if p.color == c.turn then pieceMoveList c sq p else []
    | none => []

/-- python-chess `generate_pseudo_legal_ep`: requires a nonzero, empty
en-passant square (square 0 is falsy in the source) and yields the capture
for each pawn of the side to move on the fitting rank that attacks it. -/
def epMoves (c : BoardCore) : List Move :=
  match c.epSquare with
  | none => []
  | some e =>
    if e == 0 || (pieceAt c e).isSome then []
    else
      ((attackSquares c e ⟨.pawn, !c.turn⟩).filter fun sq =>
        (match pieceAt c sq with
         | some p => p.pt == .pawn && p.color == c.turn
         | none => false) && sqRank sq == (if c.turn then 4 else 3)).map
        fun sq => (⟨sq, e, none⟩ : Move)

/-- Squares strictly between two squares on the same rank (the only case
standard castling needs of python-chess `between`). -/
def betweenOnRank (a b : Nat) : List Nat :=
  if sqRank a == sqRank b then
    let lo := min (sqFile a) (sqFile b)
    let hi := max (sqFile a) (sqFile b)
    ((List.range 8).filter fun f => lo < f && f < hi).map fun f => sqRank a * 8 + f
  else []

/-- The back-rank squares of the side to move (a1..h1 / a8..h8). -/
def backrankSquares (turn : Bool) : List Nat :=
  if turn then List.range 8 else (List.range 8).map (· + 56)

/-- The castling king of the side to move: the least back-rank square
holding an unpromoted king of that color (`king &= -king` in the source). -/
def castlingKingSq (c : BoardCore) : Option Nat :=
  (backrankSquares c.turn).find? fun sq =>
    (match pieceAt c sq with
     | some p => p.pt == .king && p.color == c.turn
     | none => false) && !(c.promoted.testBit sq)

/-- Conditions for one castling candidate (king on `k`, castling-right
rook on `cand`): the king and rook paths (and both destinations) empty
apart from the king and rook themselves, the king's square and path
unattacked with the king lifted off the board, and the king's destination
unattacked with the king and rook lifted and the rook placed on its
destination. -/
def castlingOk (b : Board) (k cand : Nat) : Bool :=
  let c := b.core
  let aSide := cand < k
  let base := if c.turn then 0 else 56
  let kingTo := if aSide then base + 2 else base + 6
  let rookTo := if aSide then base + 3 else base + 5
  let kingPath := betweenOnRank k kingTo
  let rookPath := betweenOnRank cand rookTo
  let cNoKR := removePieceAt (removePieceAt c k) cand
  let emptyOk := (kingPath ++ rookPath ++ [kingTo, rookTo]).all fun sq =>
    (pieceAt cNoKR sq).isNone
  let cNoK := removePieceAt c k
  let safe1 := (k :: kingPath).all fun sq => !isAttackedBy cNoK (!c.turn) sq
  let cShift := setPieceAt cNoKR rookTo .rook c.turn false
  let safe2 := !isAttackedBy cShift (!c.turn) kingTo
  emptyOk && safe1 && safe2

/-- One castling candidate, emitted in two-file king-move form when the
conditions hold. -/
def castlingMoveFor (b : Board) (k cand : Nat) : Option Move :=
  if castlingOk b k cand then some (fromChess960 b.core k cand none) else none

/-- python-chess `generate_castling_moves` restricted to standard chess:
one candidate per cleaned castling right of the side to move. -/
def castlingMoves (b : Board) : List Move :=
  match castlingKingSq b.core with
  | none => []
  | some k =>
    ((backrankSquares b.core.turn).filter fun cand =>
      (cleanCastlingRights b).testBit cand).filterMap (castlingMoveFor b k)

/-- Would this move leave the mover's own king attacked?  Simulates the
move with `push` and checks the king of the side that moved
(python-chess `is_into_check` semantics; with no own king everything is
safe). -/
def leavesOwnKingInCheck (b : Board) (m : Move) : Bool :=
  let b' := (Board.push m b).1
  match kingSquare b'.core b.core.turn with
  | none => false
  | some k => isAttackedBy b'.core (!b.core.turn) k

/-- python-chess `generate_legal_moves` (as a list): all pseudo-legal
moves including castling and en passant, filtered by king safety when the
side to move has a king. -/
def legalMoves (b : Board) : List Move :=
  let c := b.core
  let pseudo := pseudoLegalNormalMoves c ++ castlingMoves b ++ epMoves c
  if hasKing c c.turn then pseudo.filter fun m => !leavesOwnKingInCheck b m
  else pseudo

/-- python-chess `is_check`. -/
def isCheck (c : BoardCore) : Bool :=
  match kingSquare c c.turn with
  | none => false
  | some k => isAttackedBy c (!c.turn) k

/-- python-chess `is_checkmate`. -/
def isCheckmate (b : Board) : Bool :=
  isCheck b.core && (legalMoves b).isEmpty

/-- Number of set bits among the 64 board bits. -/
def popCount (n : Nat) : Nat :=
  ((List.range 64).filter fun i => n.testBit i).length

/-- python-chess `BB_DARK_SQUARES`. -/
def darkSquaresMask : Nat := 0xAA55AA55AA55AA55

/-- python-chess `BB_LIGHT_SQUARES`. -/
def lightSquaresMask : Nat := 0x55AA55AA55AA55AA

/-- python-chess `has_insufficient_material(color)`. -/
def hasInsufficientMaterial (c : BoardCore) (color : Bool) : Bool :=
  let own := occupiedCoBB c color
  if own &&& (pieceTypeBB c .pawn ||| pieceTypeBB c .rook ||| pieceTypeBB c .queen) != 0 then
    false
  else if own &&& pieceTypeBB c .knight != 0 then
    popCount own ≤ 2
      && natAndNot (natAndNot (occupiedCoBB c (!color)) (pieceTypeBB c .king))
           (pieceTypeBB c .queen) == 0
  else if own &&& pieceTypeBB c .bishop != 0 then
    let bishops := pieceTypeBB c .bishop
    (bishops &&& darkSquaresMask == 0 || bishops &&& lightSquaresMask == 0)
      && pieceTypeBB c .pawn == 0 && c.promoted == 0
  else true

/-- python-chess `is_insufficient_material`. -/
def isInsufficientMaterial (c : BoardCore) : Bool :=
  hasInsufficientMaterial c true && hasInsufficientMaterial c false

/-- python-chess `has_legal_en_passant`. -/
def hasLegalEnPassant (b : Board) : Bool :=
  b.core.epSquare.isSome
    && (epMoves b.core).any fun m => !leavesOwnKingInCheck b m

/-- python-chess `_transposition_key`: placement, turn, cleaned castling
rights, and the en-passant square when a legal en-passant capture exists. -/
def transpositionKey (b : Board) :
    List (Option Piece) × Bool × Nat × Option Nat :=
  (b.core.squares, b.core.turn, cleanCastlingRights b,
   if hasLegalEnPassant b then b.core.epSquare else none)

/-- python-chess `_reduces_castling_rights`. -/
def reducesCastlingRights (b : Board) (m : Move) : Bool :=
  let c := b.core
  let cr := cleanCastlingRights b
  let touched := bb m.fromSq ^^^ bb m.toSq
  touched &&& cr != 0
    || (cr &&& rank1Mask != 0
        && natAndNot (touched &&& pieceTypeBB c .king &&& occupiedCoBB c true)
             c.promoted != 0)
    || (cr &&& rank8Mask != 0
        && natAndNot (touched &&& pieceTypeBB c .king &&& occupiedCoBB c false)
             c.promoted != 0)

/-- python-chess `is_irreversible`. -/
def isIrreversible (b : Board) (m : Move) : Bool :=
  isZeroing b.core m || reducesCastlingRights b m || hasLegalEnPassant b

/-- Replay loop of python-chess `is_repetition`: pop moves while they are
reversible, decrementing the needed count on every earlier position with
the same transposition key.  Fuel-based; `moveStack.length + 1` calls
always suffice. -/
def repetitionGo (key : List (Option Piece) × Bool × Nat × Option Nat) :
    Nat → Board → Nat → Bool
  | 0, _, _ => false
  | fuel + 1, cur, count =>
    if count ≤ 1 then true
    else if cur.moveStack.length < count - 1 then false
    else
      match Board.pop cur with
      | none => false
      | some (prev, mv) =>
        if isIrreversible prev mv then false
        else
          repetitionGo key fuel prev
            (if transpositionKey prev = key then count - 1 else count)

/-- python-chess `is_repetition` (the occupancy prefilter of the source is
a pure optimisation and is not modelled). -/
def isRepetition (b : Board) (count : Nat) : Bool :=
  repetitionGo (transpositionKey b) (b.moveStack.length + 1) b count

/-- python-chess `is_seventyfive_moves`. -/
def isSeventyFiveMoves (b : Board) : Bool :=
  decide (150 ≤ b.core.halfmoveClock) && !(legalMoves b).isEmpty

/-- python-chess `is_fivefold_repetition`. -/
def isFivefoldRepetition (b : Board) : Bool := isRepetition b 5

/-- python-chess `is_game_over()` (no draw claims, as in the source):
`outcome()` is not `None` iff checkmate, insufficient material, no legal
move (stalemate / variant end), the seventy-five-move rule or fivefold
repetition holds. -/
def isGameOver (b : Board) : Bool :=
  isCheckmate b || isInsufficientMaterial b.core || (legalMoves b).isEmpty
    || isSeventyFiveMoves b || isFivefoldRepetition b

/-- Home-rank piece order. -/
def backRankPieces : List PieceType :=
  [.rook, .knight, .bishop, .queen, .king, .bishop, .knight, .rook]

/-- Placement of the standard starting position. -/
def startSquares : List (Option Piece) :=
  (backRankPieces.map fun t => some ⟨t, true⟩)
    ++ List.replicate 8 (some ⟨.pawn, true⟩)
    ++ List.replicate 32 none
    ++ List.replicate 8 (some ⟨.pawn, false⟩)
    ++ (backRankPieces.map fun t => some ⟨t, false⟩)

/-- `chess.Board()` as created at import time by src/main.py: the standard
starting position, white to move, full castling rights (rights bitboard =
corner squares, as `reset` sets), empty stacks. -/
def startBoard : Board :=
  ⟨{ squares := startSquares, turn := true,
     castlingRights := bb 0 ||| bb 7 ||| bb 56 ||| bb 63,
     epSquare := none, halfmoveClock := 0, fullmoveNumber := 1,
     promoted := 0 }, [], []⟩

/-- File letter of a file index (`a`..`h`). -/
def fileChar (f : Nat) : Char := Char.ofNat (97 + f)

/-- Rank digit of a rank index (`1`..`8`). -/
def rankChar (r : Nat) : Char := Char.ofNat (49 + r)

/-- The two characters of a square's algebraic name. -/
def squareNameChars (sq : Nat) : List Char :=
  [fileChar (sqFile sq), rankChar (sqRank sq)]

/-- python-chess `SQUARE_NAMES[sq]`. -/
def squareName (sq : Nat) : String := String.mk (squareNameChars sq)

/-- python-chess `SQUARE_NAMES`. -/
def squareNames : List String := (List.range 64).map squareName

/-- Piece type of a lowercase symbol, python-chess `PIECE_SYMBOLS.index`. -/
def pieceTypeOfSymbol (ch : Char) : Option PieceType :=
  if ch == 'p' then some .pawn
  else if ch == 'n' then some .knight
  else if ch == 'b' then some .bishop
  else if ch == 'r' then some .rook
  else if ch == 'q' then some .queen
  else if ch == 'k' then some .king
  else none

/-- Lowercase symbol of a piece type, python-chess `piece_symbol`. -/
def symbolOfPieceType : PieceType → Char
  | .pawn => 'p'
  | .knight => 'n'
  | .bishop => 'b'
  | .rook => 'r'
  | .queen => 'q'
  | .king => 'k'

/-- FEN letter of a piece (uppercase for white). -/
def pieceChar (p : Piece) : Char :=
  if p.color then (symbolOfPieceType p.pt).toUpper else symbolOfPieceType p.pt

/-- Piece denoted by a FEN letter. -/
def pieceOfChar (ch : Char) : Option Piece :=
  match pieceTypeOfSymbol ch.toLower with
  | some t => some ⟨t, ch.isUpper⟩
  | none => none

/-- Python string slice `s[a:b]` for `0 ≤ a ≤ b` (the only forms the
source uses: `uci[:2]`, `uci[2:4]`, `uci[4]`-style access is separate). -/
def pySlice (s : String) (a b : Nat) : String :=
  String.mk ((s.toList.drop a).take (b - a))

/-- python-chess `Move.from_uci`: `"0000"` is the null move; otherwise the
string must be 4 or 5 characters, both square names must exist and a 5th
character must be a piece symbol, and the two squares must differ. -/
def fromUci (s : String) : Except String Move :=
  let cs := s.toList
  if s == "0000" then .ok ⟨0, 0, none⟩
  else if cs.length == 4 || cs.length == 5 then
    let f? := squareNames.findIdx? (· == String.mk (cs.take 2))
    let t? := squareNames.findIdx? (· == String.mk ((cs.drop 2).take 2))
    let p? : Option (Option PieceType) :=
      if cs.length == 5 then
        match pieceTypeOfSymbol (cs.getD 4 ' ') with
        | some pt => some (some pt)
        | none => none
      else some none
    match f?, t?, p? with
    | some f, some t, some promo =>
      if f == t then .error ("invalid uci (use 0000 for null moves): " ++ s)
      else .ok ⟨f, t, promo⟩
    | _, _, _ => .error ("invalid uci: " ++ s)
  else .error ("expected uci string to be of length 4 or 5: " ++ s)

/-- python-chess `Move.uci`. -/
def Move.uci (m : Move) : String :=
  match m.promo with
  | some pt =>
    String.mk (squareNameChars m.fromSq ++ squareNameChars m.toSq
      ++ [symbolOfPieceType pt])
  | none =>
    if m.isNull then "0000"
    else String.mk (squareNameChars m.fromSq ++ squareNameChars m.toSq)

/-- Split a character list at every separator satisfying `p`, keeping
empty fields (the semantics of Python `str.split(sep)` and of
`String.split`). -/
def splitCharsGo (p : Char → Bool) : List Char → List Char → List String
  | [], acc => [String.mk acc.reverse]
  | c :: rest, acc =>
    if p c then String.mk acc.reverse :: splitCharsGo p rest []
    else splitCharsGo p rest (c :: acc)

/-- Split a string at separators satisfying `p`, keeping empty fields. -/
def splitChars (p : Char → Bool) (s : String) : List String :=
  splitCharsGo p s.toList []

/-- Python `str.split()` with no argument: split on whitespace runs,
dropping empty fields. -/
def splitWs (s : String) : List String :=
  (splitChars Char.isWhitespace s).filter (· != "")

/-- One row of the FEN board part, accumulating cells (piece, promoted)
in reverse; mirrors `_set_board_fen`'s per-row validation: digits 1-8 with
no two adjacent, `~` only directly after a piece, any other character
invalid, and exactly 8 columns in total. -/
def parseRowGo :
    List Char → List (Option Piece × Bool) → Bool → Bool →
    Except String (List (Option Piece × Bool))
  | [], acc, _, _ =>
    if acc.length == 8 then .ok acc.reverse
    else .error "expected 8 columns per row in position part of fen"
  | ch :: rest, acc, prevDigit, prevPiece =>
    if '1' ≤ ch && ch ≤ '8' then
      if prevDigit then .error "two subsequent digits in position part of fen"
      else parseRowGo rest (List.replicate (ch.toNat - 48) (none, false) ++ acc)
        true false
    else if ch == '~' then
      if !prevPiece then .error "~ not after piece in position part of fen"
      else
        match acc with
        | (p, _) :: tl => parseRowGo rest ((p, true) :: tl) false false
        | [] => .error "~ not after piece in position part of fen"
    else
      match pieceOfChar ch with
      | some p => parseRowGo rest ((some p, false) :: acc) false true
      | none => .error "invalid character in position part of fen"

/-- python-chess `_set_board_fen`: 8 `/`-separated rows, given rank 8
first; produces the placement (square order) and the promoted bitboard. -/
def parseBoardPart (s : String) : Except String (List (Option Piece) × Nat) := do
  let rows := splitChars (· == '/') s
  if rows.length != 8 then
    throw "expected 8 rows in position part of fen"
  else
    let parsed ← rows.mapM fun r => parseRowGo r.toList [] false false
    let cells := parsed.reverse.flatten
    let squares := cells.map Prod.fst
    let promotedBB := (List.range 64).foldl
      (fun acc i => if (cells.getD i (none, false)).2 then acc ||| bb i else acc) 0
    return (squares, promotedBB)

/-- python-chess `FEN_CASTLING_REGEX`:
`-`, or up to two of `KQA-H` followed by up to two of `kqa-h`. -/
def castlingRegexOk (s : String) : Bool :=
  s == "-" ||
  (let cs := s.toList
   let up := cs.takeWhile Char.isUpper
   let lo := cs.drop up.length
   up.length ≤ 2 && lo.length ≤ 2
     && up.all (fun ch => ch == 'K' || ch == 'Q' || ('A' ≤ ch && ch ≤ 'H'))
     && lo.all (fun ch => ch == 'k' || ch == 'q' || ('a' ≤ ch && ch ≤ 'h')))

/-- Least set bit among the 64 board bits, `-1` when none (python `lsb`). -/
def lsb64 (n : Nat) : Int :=
  match (List.range 64).find? (fun i => n.testBit i) with
  | some i => (i : Int)
  | none => -1

/-- Greatest set bit among the 64 board bits, `-1` when none (python `msb`). -/
def msb64 (n : Nat) : Int :=
  match ((List.range 64).filter (fun i => n.testBit i)).getLast? with
  | some i => (i : Int)
  | none => -1

/-- The lowest set bit as a bitboard (python `bb & -bb`), 0 when empty. -/
def lowestBit (n : Nat) : Nat :=
  match (List.range 64).find? (fun i => n.testBit i) with
  | some i => bb i
  | none => 0

/-- python-chess `_set_castling_fen` applied to already-validated flags,
evaluated against the freshly set placement: `K`/`Q` (and `k`/`q`) pick
the outermost rook of that color on the back rank when a king is present,
falling back to the h/a corner; a file letter picks that file. -/
def castlingFromFlags (c : BoardCore) (flags : String) : Nat :=
  if flags == "-" then 0
  else
    flags.toList.foldl
      (fun acc ch =>
        let color := ch.isUpper
        let fl := ch.toLower
        let base := if color then 0 else 56
        let backrank := if color then rank1Mask else rank8Mask
        let rooks := occupiedCoBB c color &&& pieceTypeBB c .rook &&& backrank
        let king? := kingSquare c color
        if fl == 'q' then
          match king? with
          | some k => if lsb64 rooks < (k : Int) then acc ||| lowestBit rooks
                      else acc ||| bb base
          | none => acc ||| bb base
        else if fl == 'k' then
          match king? with
          | some k => if (k : Int) < msb64 rooks then
                        acc ||| bb (msb64 rooks).toNat
                      else acc ||| bb (base + 7)
          | none => acc ||| bb (base + 7)
        else acc ||| bb (base + (fl.toNat - 97)))
      0

/-- Python `int(s)` restricted to the forms a FEN token can take: an
optional sign followed by decimal digits. -/
def parsePyInt (s : String) : Option Int :=
  let digitsVal : List Char → Int := fun cs =>
    cs.foldl (fun a c => a * 10 + ((c.toNat : Int) - 48)) 0
  match s.toList with
  | '-' :: rest =>
    if !rest.isEmpty && rest.all Char.isDigit then some (-(digitsVal rest)) else none
  | '+' :: rest =>
    if !rest.isEmpty && rest.all Char.isDigit then some (digitsVal rest) else none
  | cs =>
    if !cs.isEmpty && cs.all Char.isDigit then some (digitsVal cs) else none

/-- python-chess `Board.set_fen`.  Validates and decodes every field —
missing trailing fields default as in the source (white to move, no
castling, no en passant, clocks 0 and 1) — and on success replaces the
whole board and clears both stacks.  Any failure raises `ValueError`
(python-chess's `MalformedPositionError` in the spec's taxonomy) before
anything is mutated, so a failed `set_fen` leaves the prior board intact;
functionally the parse simply does not depend on the receiver.  The parts
are checked in the source's order (board part last). -/
def setFen (fen : String) : Except String Board := do
  match splitWs fen with
  | [] => throw "empty fen"
  | boardPart :: rest0 =>
    let (turn, rest1) ←
      match rest0 with
      | [] => Except.ok (true, ([] : List String))
      | t :: r =>
        if t == "w" then Except.ok (true, r)
        else if t == "b" then Except.ok (false, r)
        else Except.error "expected w or b for turn part of fen"
    let (castlingPart, rest2) ←
      match rest1 with
      | [] => Except.ok ("-", ([] : List String))
      | cp :: r =>
        if castlingRegexOk cp then Except.ok (cp, r)
        else Except.error "invalid castling part in fen"
    let (epSq, rest3) ←
      match rest2 with
      | [] => Except.ok ((none : Option Nat), ([] : List String))
      | e :: r =>
        if e == "-" then Except.ok (none, r)
        else
          match squareNames.findIdx? (· == e) with
          | some i => Except.ok (some i, r)
          | none => Except.error "invalid en passant part in fen"
    let (halfmove, rest4) ←
      match rest3 with
      | [] => Except.ok (0, ([] : List String))
      | h :: r =>
        match parsePyInt h with
        | some v =>
          if v < 0 then Except.error "halfmove clock cannot be negative"
          else Except.ok (v.toNat, r)
        | none => Except.error "invalid half-move clock in fen"
    let (fullmove, rest5) ←
      match rest4 with
      | [] => Except.ok (1, ([] : List String))
      | f :: r =>
        match parsePyInt f with
        | some v =>
          if v < 0 then Except.error "fullmove number cannot be negative"
          else Except.ok (max v.toNat 1, r)
        | none => Except.error "invalid fullmove number in fen"
    if !rest5.isEmpty then throw "fen string has more parts than expected"
    else
      let (squares, promotedBB) ← parseBoardPart boardPart
      let base : BoardCore :=
        { squares := squares, turn := turn, castlingRights := 0,
          epSquare := epSq, halfmoveClock := halfmove,
          fullmoveNumber := fullmove, promoted := promotedBB }
      return ⟨{ base with castlingRights := castlingFromFlags base castlingPart },
              [], []⟩

/-- Flush a run of empty squares as its count digit. -/
def flushEmpties (n : Nat) : List Char :=
  if n == 0 then [] else [Char.ofNat (48 + n)]

/-- One rank of the FEN board part.  `fen()` with its defaults does not
emit `~` promoted markers (`board_fen(promoted=None)` in the source). -/
def rankFen (c : BoardCore) (r : Nat) : List Char :=
  let step := fun (acc : List Char × Nat) f =>
    match pieceAt c (r * 8 + f) with
    | none => (acc.1, acc.2 + 1)
    | some p => (acc.1 ++ flushEmpties acc.2 ++ [pieceChar p], 0)
  let (cs, e) := (List.range 8).foldl step ([], 0)
  cs ++ flushEmpties e

/-- python-chess `board_fen`. -/
def boardFenChars (c : BoardCore) : List Char :=
  List.intercalate ['/'] ((List.range 8).reverse.map (rankFen c))

/-- python-chess `castling_xfen`: each cleaned right becomes `K`/`Q`
(`k`/`q`), or the rook's file letter when another rook of that color on
the back rank makes the side ambiguous; scanned from h-file to a-file,
white first; `-` when no rights remain. -/
def castlingXfen (b : Board) : String :=
  let c := b.core
  let clean := cleanCastlingRights b
  let forColor := fun (color : Bool) =>
    match kingSquare c color with
    | none => ([] : List Char)
    | some king =>
      let backrank := if color then List.range 8 else (List.range 8).map (· + 56)
      let kingFile := sqFile king
      ((backrank.filter fun sq => clean.testBit sq).reverse).map fun rookSq =>
        let rookFile := sqFile rookSq
        let aSide := decide (rookFile < kingFile)
        let others := backrank.filter fun o =>
          o != rookSq &&
          (match pieceAt c o with
           | some p => p.pt == .rook && p.color == color
           | none => false)
        let ambiguous := others.any fun o => decide (sqFile o < rookFile) == aSide
        let ch := if ambiguous then fileChar rookFile
                  else if aSide then 'q' else 'k'
        if color then ch.toUpper else ch
  let cs := forColor true ++ forColor false
  if cs.isEmpty then "-" else String.mk cs

/-- python-chess `Board.fen()` with its defaults: the en-passant field is
printed only when an en-passant capture is actually legal. -/
def Board.fen (b : Board) : String :=
  let c := b.core
  String.mk (boardFenChars c) ++ " " ++ (if c.turn then "w" else "b") ++ " "
    ++ castlingXfen b ++ " "
    ++ (if hasLegalEnPassant b then
          match c.epSquare with
          | some e => squareName e
          | none => "-"
        else "-")
    ++ " " ++ toString c.halfmoveClock ++ " " ++ toString c.fullmoveNumber

/-- One log line per `print` site in src/main.py, carrying the printed
data. -/
inductive LogMsg
  | connected
  | connectionFailed (data : String)
  | disconnected
  | playingAs (side : String)
  | spectator
  | boardUpdated (fen : String)
  | opponentMoved (payload : List (String × String))
  | invalidMoveReceived (payload : List (String × String)) (err : String)
  | gameOver
  | botPlayed (uci : String)
deriving DecidableEq, Repr

/-- The module-level mutable state of src/main.py: the global `chessboard`
and `player_role` (Python `None` until a role event arrives). -/
structure GState where
  chessboard : Board
  playerRole : Option String
deriving DecidableEq, Repr

/-- The state right after import: `chess.Board()` and `player_role = None`. -/
def initialGState : GState := ⟨startBoard, none⟩

/-- Result of running one handler: the new module state, the events
emitted via `sio.emit` (name and dict payload), the log lines printed,
and — when the handler let an exception escape — the error that
propagated out of it uncaught. -/
structure HResult where
  state : GState
  emitted : List (String × List (String × String))
  logs : List LogMsg
  err : Option String
deriving DecidableEq, Repr

/-- Result of `make_moves()` (which reads and writes only `chessboard`). -/
structure MMResult where
  chessboard : Board
  emitted : List (String × List (String × String))
  logs : List LogMsg
  err : Option String
deriving DecidableEq, Repr

/-- `random.choice(seq)` with the process-wide generator modelled by an
oracle index `n`: a draw returns `seq[n % len(seq)]` (uniform over the
list for uniform `n`); the empty sequence raises `IndexError` as in the
library. -/
def randomChoice (l : List Move) (n : Nat) : Except String Move :=
  if h : l = [] then .error "IndexError: Cannot choose from an empty sequence"
  else .ok (l.get ⟨n % l.length, Nat.mod_lt _ (List.length_pos.mpr h)⟩)

/-- `make_moves()` from src/main.py: if the game is over, print
"Game Over" and return; otherwise pick a uniformly random legal move,
push it on the local board, then emit the move event — `from` is
`move.uci()[:2]`, `to` is `move.uci()[2:4]`, `promotion` is always
`"q"` — and print the played move.  An exception raised inside (from an
empty `random.choice` or a failing `push`) would propagate uncaught. -/
def make_moves (b : Board) (n : Nat) : MMResult :=
  if isGameOver b then ⟨b, [], [.gameOver], none⟩
  else
    match randomChoice (legalMoves b) n with
    | .error e => ⟨b, [], [], some e⟩
    | .ok m =>
      match Board.push m b with
      | (b', some e) => ⟨b', [], [], some e⟩
      | (b', none) =>
        ⟨b', [("move", [("from", pySlice m.uci 0 2), ("to", pySlice m.uci 2 4),
                        ("promotion", "q")])], [.botPlayed m.uci], none⟩

/-- `connect` handler: log only. -/
def connect (s : GState) : HResult := ⟨s, [], [.connected], none⟩

/-- `connect_error` handler: log only. -/
def connect_error (s : GState) (data : String) : HResult :=
  ⟨s, [], [.connectionFailed data], none⟩

/-- `disconnect` handler: log only. -/
def disconnect (s : GState) : HResult := ⟨s, [], [.disconnected], none⟩

/-- `on_player_role` handler: unconditionally overwrite the global
`player_role` with the payload and print the side (anything other than
`"w"` prints as Black). -/
def on_player_role (s : GState) (role : String) : HResult :=
  ⟨⟨s.chessboard, some role⟩, [],
   [.playingAs (if role == "w" then "White" else "Black")], none⟩

/-- `on_spectator` handler: log only — it does not modify `player_role`. -/
def on_spectator (s : GState) : HResult := ⟨s, [], [.spectator], none⟩

/-- `on_boardstate` handler: `chessboard.set_fen(fen)` (whose `ValueError`
propagates out of the handler — there is no try/except here), print the
update, then call `make_moves()` iff the new side to move equals
`player_role` (never for the Python `None` role).  In the source
`make_moves` is defined later in the module but resolved at call time. -/
def on_boardstate (s : GState) (fen : String) (n : Nat) : HResult :=
  match setFen fen with
  | .error e => ⟨s, [], [], some e⟩
  | .ok b' =>
    let turn := if b'.core.turn then "w" else "b"
    if s.playerRole == some turn then
      let r := make_moves b' n
      ⟨⟨r.chessboard, s.playerRole⟩, r.emitted, .boardUpdated fen :: r.logs, r.err⟩
    else ⟨⟨b', s.playerRole⟩, [], [.boardUpdated fen], none⟩

/-- Python `move["from"]` / `move["to"]`: raises `KeyError` when absent. -/
def dictGet (d : List (String × String)) (k : String) : Except String String :=
  match d.find? (fun p => p.1 == k) with
  | some p => .ok p.2
  | none => .error ("KeyError: " ++ k)

/-- The expression `chess.Move.from_uci(move["from"] + move["to"])` of
`on_move` as a fallible computation. -/
def parsePayloadMove (payload : List (String × String)) : Except String Move := do
  let f ← dictGet payload "from"
  let t ← dictGet payload "to"
  fromUci (f ++ t)

/-- `on_move` handler: the body is wrapped in `try/except Exception`, so
no failure propagates; any exception is printed as "Invalid move
received".  A failure inside `push` keeps the mutations `push` made
before raising. -/
def on_move (s : GState) (payload : List (String × String)) : HResult :=
  match parsePayloadMove payload with
  | .error e => ⟨s, [], [.invalidMoveReceived payload e], none⟩
  | .ok m =>
    match Board.push m s.chessboard with
    | (b', some e) => ⟨⟨b', s.playerRole⟩, [], [.invalidMoveReceived payload e], none⟩
    | (b', none) => ⟨⟨b', s.playerRole⟩, [], [.opponentMoved payload], none⟩

/-- The server-pushed events of the spec's dispatcher table (§4.4/§6),
with the oracle index for the random draw a board-state event may
trigger. -/
inductive SEvent
  | connected
  | connectionFailed (data : String)
  | disconnected
  | playerRole (role : String)
  | spectator
  | boardState (fen : String) (n : Nat)
  | opponentMove (payload : List (String × String))
deriving DecidableEq, Repr

/-- Invoking the handler function src/main.py defines for an event (the
binding the spec describes; `sioScript` below records what the script
actually registers). -/
def step (s : GState) : SEvent → HResult
  | .connected => connect s
  | .connectionFailed d => connect_error s d
  | .disconnected => disconnect s
  | .playerRole r => on_player_role s r
  | .spectator => on_spectator s
  | .boardState fen n => on_boardstate s fen n
  | .opponentMove p => on_move s p

/-- A reference to one of the handler functions defined in src/main.py. -/
inductive HandlerRef
  | hConnect | hConnectError | hDisconnect | hPlayerRole | hSpectator
  | hBoardstate | hMove
deriving DecidableEq, Repr

/-- The registration table of a `socketio.Client`. -/
structure SioClient where
  handlers : List (String × HandlerRef)
deriving DecidableEq, Repr

/-- `socketio.Client()`: a fresh client has no handlers registered —
handlers are added only by `Client.on(name, handler)` or the
`@sio.event` decorator. -/
def SioClient.new : SioClient := ⟨[]⟩

/-- `Client.on(event, handler)`: registration, last write wins.  The
library provides it; src/main.py never calls it. -/
def SioClient.on (c : SioClient) (event : String) (h : HandlerRef) : SioClient :=
  ⟨(event, h) :: c.handlers.filter (fun p => p.1 != event)⟩

/-- The client as built by running the top level of src/main.py:
`sio = socketio.Client()` with no `@sio.event` decorator and no
`sio.on(...)` call anywhere in the module — the handler functions are
defined but never registered. -/
def sioScript : SioClient := SioClient.new

/-- Which handler the client invokes when the server pushes `event`. -/
def dispatchHandler (c : SioClient) (event : String) : Option HandlerRef :=
  (c.handlers.find? (fun p => p.1 == event)).map Prod.snd

/-! ## Helper lemmas -/

lemma toChess960_fromSq (c : BoardCore) (m : Move) :
    (toChess960 c m).fromSq = m.fromSq := by
  simp only [toChess960]
  split_ifs
  all_goals simp_all

lemma fromChess960_fromSq (c : BoardCore) (f t : Nat) (p : Option PieceType) :
    (fromChess960 c f t p).fromSq = f := by
  simp only [fromChess960]
  split_ifs
  all_goals simp_all

lemma fromChess960_ne (c : BoardCore) (f t : Nat) (p : Option PieceType)
    (h : f ≠ t) :
    (fromChess960 c f t p).toSq ≠ (fromChess960 c f t p).fromSq := by
  simp only [fromChess960]
  split_ifs
  all_goals simp_all
  all_goals omega

lemma push_moveStack_length (m : Move) (b : Board) :
    (Board.push m b).1.moveStack.length = b.moveStack.length + 1 := by
  simp only [Board.push]
  split
  · rfl
  · split <;> rfl

lemma push_ne (m : Move) (b : Board) : (Board.push m b).1 ≠ b := by
  intro h
  have h2 := congrArg (fun x : Board => x.moveStack.length) h
  simp only [push_moveStack_length] at h2
  omega

lemma push_ok_of_occupied (m : Move) (b : Board)
    (h : (pieceAt b.core m.fromSq).isSome = true) :
    (Board.push m b).2 = none ∧ (Board.push m b).1.core.turn = !b.core.turn := by
  simp only [Board.push]
  split
  · exact ⟨rfl, rfl⟩
  · split
    · rename_i heq
      rw [toChess960_fromSq] at heq
      rw [heq] at h
      simp at h
    · exact ⟨rfl, rfl⟩

lemma shiftSq_spec {sq t : Nat} {df dr : Int} (h : shiftSq sq df dr = some t) :
    (sqFile t : Int) = sqFile sq + df ∧ (sqRank t : Int) = sqRank sq + dr := by
  simp only [shiftSq] at h
  split at h
  · rename_i hcond
    simp only [Option.some.injEq] at h
    subst h
    unfold sqFile sqRank at *
    omega
  · exact absurd h (by simp)

lemma rayGo_mono (c : BoardCore) (d : Int × Int) (fuel : Nat) :
    ∀ (cur t : Nat), t ∈ rayGo c d cur fuel →
      ((0 < d.1 → sqFile cur < sqFile t) ∧ (d.1 < 0 → sqFile t < sqFile cur) ∧
       (0 < d.2 → sqRank cur < sqRank t) ∧ (d.2 < 0 → sqRank t < sqRank cur)) := by
  induction fuel with
  | zero => intro cur t h; simp [rayGo] at h
  | succ n ih =>
    intro cur t h
    rw [rayGo] at h
    rcases hs : shiftSq cur d.1 d.2 with _ | t1
    · rw [hs] at h; simp at h
    · rw [hs] at h
      dsimp only at h
      obtain ⟨hf, hr⟩ := shiftSq_spec hs
      by_cases ho : (pieceAt c t1).isSome = true
      · rw [if_pos ho] at h
        simp only [List.mem_singleton] at h
        subst h
        refine ⟨?_, ?_, ?_, ?_⟩ <;> intro hd <;> omega
      · rw [if_neg ho] at h
        rcases List.mem_cons.mp h with rfl | htail
        · refine ⟨?_, ?_, ?_, ?_⟩ <;> intro hd <;> omega
        · obtain ⟨h1, h2, h3, h4⟩ := ih t1 t htail
          refine ⟨?_, ?_, ?_, ?_⟩ <;> intro hd <;> omega

lemma rayTargets_ne (c : BoardCore) (d : Int × Int) (hd : d.1 ≠ 0 ∨ d.2 ≠ 0)
    (sq t : Nat) (h : t ∈ rayTargets c sq d) : t ≠ sq := by
  obtain ⟨h1, h2, h3, h4⟩ := rayGo_mono c d 7 sq t h
  intro heq
  subst heq
  rcases hd with hd | hd
  · rcases lt_or_gt_of_ne hd with hlt | hgt
    · exact absurd (h2 hlt) (lt_irrefl _)
    · exact absurd (h1 hgt) (lt_irrefl _)
  · rcases lt_or_gt_of_ne hd with hlt | hgt
    · exact absurd (h4 hlt) (lt_irrefl _)
    · exact absurd (h3 hgt) (lt_irrefl _)

lemma attackSquares_ne (c : BoardCore) (sq : Nat) (p : Piece) (t : Nat)
    (h : t ∈ attackSquares c sq p) : t ≠ sq := by
  cases hpt : p.pt <;> simp only [attackSquares, hpt] at h
  case pawn =>
    cases hc : p.color <;>
      simp only [hc, Bool.false_eq_true, if_true, if_false, ite_true, ite_false] at h <;>
    · obtain ⟨d, hd, hs⟩ := List.mem_filterMap.mp h
      obtain ⟨hf, hr⟩ := shiftSq_spec hs
      simp only [List.mem_cons, List.not_mem_nil, or_false] at hd
      rcases hd with rfl | rfl <;> dsimp only at hf hr <;>
        (intro heq; subst heq; omega)
  case knight =>
    obtain ⟨d, hd, hs⟩ := List.mem_filterMap.mp h
    obtain ⟨hf, hr⟩ := shiftSq_spec hs
    simp only [knightDeltas, List.mem_cons, List.not_mem_nil, or_false] at hd
    rcases hd with rfl | rfl | rfl | rfl | rfl | rfl | rfl | rfl <;>
      dsimp only at hf hr <;> (intro heq; subst heq; omega)
  case king =>
    obtain ⟨d, hd, hs⟩ := List.mem_filterMap.mp h
    obtain ⟨hf, hr⟩ := shiftSq_spec hs
    simp only [kingDeltas, List.mem_cons, List.not_mem_nil, or_false] at hd
    rcases hd with rfl | rfl | rfl | rfl | rfl | rfl | rfl | rfl <;>
      dsimp only at hf hr <;> (intro heq; subst heq; omega)
  case bishop =>
    obtain ⟨d, hd, ht⟩ := List.mem_flatMap.mp h
    simp only [bishopDirs, List.mem_cons, List.not_mem_nil, or_false] at hd
    rcases hd with rfl | rfl | rfl | rfl <;>
      exact rayTargets_ne c _ (by decide) sq t ht
  case rook =>
    obtain ⟨d, hd, ht⟩ := List.mem_flatMap.mp h
    simp only [rookDirs, List.mem_cons, List.not_mem_nil, or_false] at hd
    rcases hd with rfl | rfl | rfl | rfl <;>
      exact rayTargets_ne c _ (by decide) sq t ht
  case queen =>
    obtain ⟨d, hd, ht⟩ := List.mem_flatMap.mp h
    simp only [rookDirs, bishopDirs, List.cons_append, List.nil_append,
      List.mem_cons, List.not_mem_nil, or_false] at hd
    rcases hd with rfl | rfl | rfl | rfl | rfl | rfl | rfl | rfl <;>
      exact rayTargets_ne c _ (by decide) sq t ht

lemma promoExpandMoves_spec (sq t : Nat) (m : Move)
    (h : m ∈ promoExpandMoves sq t) : m.fromSq = sq ∧ m.toSq = t := by
  unfold promoExpandMoves at h
  split at h <;>
    simp only [List.mem_cons, List.not_mem_nil, or_false] at h
  · rcases h with rfl | rfl | rfl | rfl <;> exact ⟨rfl, rfl⟩
  · subst h; exact ⟨rfl, rfl⟩

lemma pawnSingleTargets_spec (c : BoardCore) (sq : Nat) (color : Bool) (t : Nat)
    (h : t ∈ pawnSingleTargets c sq color) : t ≠ sq := by
  unfold pawnSingleTargets at h
  cases color <;> simp only [Bool.false_eq_true, if_true, if_false, ite_true,
    ite_false] at h <;> split at h <;>
    simp_all [Bool.and_eq_true, decide_eq_true_eq] <;> omega

lemma pawnDoubleTargets_spec (c : BoardCore) (sq : Nat) (color : Bool) (t : Nat)
    (h : t ∈ pawnDoubleTargets c sq color) : t ≠ sq := by
  unfold pawnDoubleTargets at h
  cases color <;> simp only [Bool.false_eq_true, if_true, if_false, ite_true,
    ite_false] at h <;> split at h <;>
    simp_all [Bool.and_eq_true, decide_eq_true_eq] <;> omega

lemma pawnCaptureTargets_spec (c : BoardCore) (sq : Nat) (color : Bool) (t : Nat)
    (h : t ∈ pawnCaptureTargets c sq color) : t ≠ sq := by
  unfold pawnCaptureTargets at h
  obtain ⟨u, hu, hsome⟩ := List.mem_filterMap.mp h
  have hut : t = u := by
    rcases hq : pieceAt c u with _ | q <;> simp only [hq] at hsome
    · exact absurd hsome (by simp)
    · split at hsome <;> simp_all
  subst hut
  exact attackSquares_ne c sq _ t hu

lemma pawnMoveList_spec (c : BoardCore) (sq : Nat) (color : Bool) (m : Move)
    (h : m ∈ pawnMoveList c sq color) : m.fromSq = sq ∧ m.toSq ≠ sq := by
  unfold pawnMoveList at h
  rcases List.mem_append.mp h with h12 | h3
  · rcases List.mem_append.mp h12 with h1 | h2
    · obtain ⟨t, ht, hm⟩ := List.mem_flatMap.mp h1
      obtain ⟨hf, ht2⟩ := promoExpandMoves_spec sq t m hm
      exact ⟨hf, ht2 ▸ pawnCaptureTargets_spec c sq color t ht⟩
    · obtain ⟨t, ht, hm⟩ := List.mem_flatMap.mp h2
      obtain ⟨hf, ht2⟩ := promoExpandMoves_spec sq t m hm
      exact ⟨hf, ht2 ▸ pawnSingleTargets_spec c sq color t ht⟩
  · obtain ⟨t, ht, hm⟩ := List.mem_map.mp h3
    subst hm
    exact ⟨rfl, pawnDoubleTargets_spec c sq color t ht⟩

lemma pieceMoveList_spec (c : BoardCore) (sq : Nat) (p : Piece) (m : Move)
    (h : m ∈ pieceMoveList c sq p) : m.fromSq = sq ∧ m.toSq ≠ sq := by
  cases hpt : p.pt <;> simp only [pieceMoveList, hpt] at h
  case pawn => exact pawnMoveList_spec c sq p.color m h
  all_goals
    obtain ⟨t, ht, hsome⟩ := List.mem_filterMap.mp h
  all_goals
    have hm : m = ⟨sq, t, none⟩ := by
      rcases hq : pieceAt c t with _ | q <;> simp only [hq] at hsome
      · simp only [Option.some.injEq] at hsome
        exact hsome.symm
      · split at hsome <;> simp_all
  all_goals subst hm
  all_goals exact ⟨rfl, attackSquares_ne c sq _ t ht⟩

lemma pseudoLegalNormalMoves_spec (c : BoardCore) (m : Move)
    (h : m ∈ pseudoLegalNormalMoves c) :
    (∃ p, pieceAt c m.fromSq = some p ∧ p.color = c.turn) ∧ m.toSq ≠ m.fromSq := by
  unfold pseudoLegalNormalMoves at h
  obtain ⟨sq, _, hm⟩ := List.mem_flatMap.mp h
  rcases hq : pieceAt c sq with _ | p <;> simp only [hq] at hm
  · exact absurd hm (by simp)
  · cases hcol : (p.color == c.turn)
    · rw [hcol] at hm; simp at hm
    · rw [hcol] at hm
      simp only [if_true, ite_true] at hm
      obtain ⟨hf, hne⟩ := pieceMoveList_spec c sq p m hm
      subst hf
      exact ⟨⟨p, hq, by simpa using hcol⟩, hne⟩

lemma epMoves_spec (c : BoardCore) (m : Move) (h : m ∈ epMoves c) :
    (∃ p, pieceAt c m.fromSq = some p ∧ p.color = c.turn) ∧ m.toSq ≠ m.fromSq := by
  unfold epMoves at h
  rcases he : c.epSquare with _ | e <;> simp only [he] at h
  · exact absurd h (by simp)
  · split at h
    · exact absurd h (by simp)
    · rename_i hguard
      obtain ⟨sq, hsq, hm⟩ := List.mem_map.mp h
      subst hm
      have hpred := (List.mem_filter.mp hsq).2
      simp only [Bool.and_eq_true] at hpred
      obtain ⟨hp1, _⟩ := hpred
      rcases hq : pieceAt c sq with _ | p <;> simp only [hq] at hp1
      · exact absurd hp1 (by simp)
      · simp only [Bool.and_eq_true, beq_iff_eq] at hp1
        refine ⟨⟨p, rfl, hp1.2⟩, ?_⟩
        intro heq
        have heq2 : e = sq := heq
        exact hguard (by rw [heq2, hq]; simp)

lemma bb_testBit (a sq : Nat) : (bb a).testBit sq = true → sq = a := by
  intro h
  unfold bb at h
  rw [Nat.shiftLeft_eq, one_mul] at h
  by_contra hne
  rw [Nat.testBit_two_pow_of_ne (fun hc => hne hc.symm)] at h
  exact absurd h (by simp)

lemma bbOf_testBit (c : BoardCore) (pf : Nat → Piece → Bool) (sq : Nat)
    (h : (bbOf c pf).testBit sq = true) :
    ∃ pc, pieceAt c sq = some pc ∧ pf sq pc = true := by
  have aux : ∀ (l : List Nat) (acc : Nat),
      ((l.foldl (fun a s =>
        match pieceAt c s with
        | some pc => if pf s pc then a ||| bb s else a
        | none => a) acc).testBit sq = true) →
      acc.testBit sq = true ∨ ∃ pc, pieceAt c sq = some pc ∧ pf sq pc = true := by
    intro l
    induction l with
    | nil => intro acc h2; exact Or.inl h2
    | cons a l ih =>
      intro acc h2
      simp only [List.foldl_cons] at h2
      rcases ih _ h2 with hacc | hex
      · rcases hq : pieceAt c a with _ | pc <;> simp only [hq] at hacc
        · exact Or.inl hacc
        · split at hacc
          · rw [Nat.testBit_lor] at hacc
            rcases Bool.or_eq_true_iff.mp hacc with h3 | h4
            · exact Or.inl h3
            · have hsa := bb_testBit a sq h4
              subst hsa
              rename_i hcond
              exact Or.inr ⟨pc, hq, hcond⟩
          · exact Or.inl hacc
      · exact Or.inr hex
  rcases aux (List.range 64) 0 h with h0 | hex
  · rw [Nat.zero_testBit] at h0
    exact absurd h0 (by simp)
  · exact hex

lemma clean_testBit_rook (b : Board) (hs : b.stateStack = []) (sq : Nat)
    (h : (cleanCastlingRights b).testBit sq = true) :
    ∃ pc, pieceAt b.core sq = some pc ∧ pc.pt = PieceType.rook := by
  unfold cleanCastlingRights at h
  rw [hs] at h
  simp only [List.isEmpty_nil, Bool.not_true, Bool.false_eq_true, if_false,
    ite_false] at h
  rw [Nat.testBit_lor] at h
  have hland : ∀ x y : Nat, (x &&& y).testBit sq = true →
      x.testBit sq = true ∧ y.testBit sq = true := by
    intro x y hxy
    rw [Nat.testBit_land] at hxy
    exact Bool.and_eq_true_iff.mp hxy
  rcases Bool.or_eq_true_iff.mp h with hw | hb
  · split at hw
    · have h1 := (hland _ _ (hland _ _ (hland _ _ hw).1).1).1
      have h2 := hland _ _ h1
      obtain ⟨pc, hpc, hbeq⟩ := bbOf_testBit _ _ _ h2.2
      exact ⟨pc, hpc, by simpa using hbeq⟩
    · rw [Nat.zero_testBit] at hw
      exact absurd hw (by simp)
  · split at hb
    · have h1 := (hland _ _ (hland _ _ (hland _ _ hb).1).1).1
      have h2 := hland _ _ h1
      obtain ⟨pc, hpc, hbeq⟩ := bbOf_testBit _ _ _ h2.2
      exact ⟨pc, hpc, by simpa using hbeq⟩
    · rw [Nat.zero_testBit] at hb
      exact absurd hb (by simp)

lemma castlingMoves_spec (b : Board) (m : Move) (h : m ∈ castlingMoves b) :
    (∃ p, pieceAt b.core m.fromSq = some p ∧ p.color = b.core.turn) ∧
      (b.stateStack = [] → m.toSq ≠ m.fromSq) := by
  unfold castlingMoves at h
  rcases hk : castlingKingSq b.core with _ | k <;> rw [hk] at h
  · exact absurd h (by simp)
  · obtain ⟨cand, hcand, hsome⟩ := List.mem_filterMap.mp h
    have hm : m = fromChess960 b.core k cand none := by
      unfold castlingMoveFor at hsome
      split at hsome
      · simpa using hsome.symm
      · exact absurd hsome (by simp)
    have hkp := List.find?_some hk
    simp only [Bool.and_eq_true] at hkp
    obtain ⟨hk1, _⟩ := hkp
    rcases hq : pieceAt b.core k with _ | p <;> rw [hq] at hk1
    · exact absurd hk1 (by simp)
    · simp only [Bool.and_eq_true, beq_iff_eq] at hk1
      constructor
      · rw [hm, fromChess960_fromSq, hq]
        exact ⟨p, rfl, hk1.2⟩
      · intro hstack
        have hbit := (List.mem_filter.mp hcand).2
        obtain ⟨pc, hpc, hrook⟩ := clean_testBit_rook b hstack cand hbit
        have hkc : k ≠ cand := by
          intro hkc
          rw [← hkc, hq] at hpc
          injection hpc with hpc2
          rw [← hpc2] at hrook
          rw [hk1.1] at hrook
          exact PieceType.noConfusion hrook
        rw [hm]
        exact fromChess960_ne b.core k cand none hkc

lemma legalMoves_spec (b : Board) (m : Move) (h : m ∈ legalMoves b) :
    (∃ p, pieceAt b.core m.fromSq = some p ∧ p.color = b.core.turn) ∧
      (b.stateStack = [] → m.toSq ≠ m.fromSq) := by
  have hp : m ∈ pseudoLegalNormalMoves b.core ++ castlingMoves b ++ epMoves b.core := by
    simp only [legalMoves] at h
    split at h
    · exact List.mem_of_mem_filter h
    · exact h
  rcases List.mem_append.mp hp with h12 | h3
  · rcases List.mem_append.mp h12 with h1 | h2
    · obtain ⟨he, hne⟩ := pseudoLegalNormalMoves_spec _ _ h1
      exact ⟨he, fun _ => hne⟩
    · exact castlingMoves_spec b m h2
  · obtain ⟨he, hne⟩ := epMoves_spec _ _ h3
    exact ⟨he, fun _ => hne⟩

lemma legalMoves_push_ok (b : Board) (m : Move) (h : m ∈ legalMoves b) :
    (Board.push m b).2 = none ∧ (Board.push m b).1.core.turn = !b.core.turn := by
  obtain ⟨⟨p, hp, _⟩, _⟩ := legalMoves_spec b m h
  exact push_ok_of_occupied m b (by rw [hp]; rfl)

lemma legalMoves_not_null (b : Board) (m : Move) (hs : b.stateStack = [])
    (h : m ∈ legalMoves b) : m.isNull = false := by
  obtain ⟨_, hne⟩ := legalMoves_spec b m h
  have hne2 := hne hs
  unfold Move.isNull
  by_contra hb
  simp only [Bool.not_eq_false, Bool.and_eq_true, beq_iff_eq] at hb
  exact hne2 (hb.1.2.trans hb.1.1.symm)

lemma uci_slices (m : Move) (hne : m.isNull = false) :
    pySlice m.uci 0 2 = squareName m.fromSq ∧
    pySlice m.uci 2 4 = squareName m.toSq := by
  rcases hp : m.promo with _ | pt <;>
    simp only [Move.uci, hp, hne, Bool.false_eq_true, if_false, ite_false] <;>
    exact ⟨rfl, rfl⟩

lemma randomChoice_spec (l : List Move) (n : Nat) (h : l ≠ []) :
    ∃ m, m ∈ l ∧ randomChoice l n = .ok m := by
  unfold randomChoice
  rw [dif_neg h]
  exact ⟨_, List.get_mem _ _ _, rfl⟩

lemma legalMoves_ne_nil_of_not_over (b : Board) (h : isGameOver b = false) :
    legalMoves b ≠ [] := by
  intro hnil
  have hemp : (legalMoves b).isEmpty = true := by rw [hnil]; rfl
  unfold isGameOver at h
  rw [hemp] at h
  simp at h

lemma make_moves_of_over (b : Board) (n : Nat) (h : isGameOver b = true) :
    make_moves b n = ⟨b, [], [.gameOver], none⟩ := by
  simp [make_moves, h]

lemma make_moves_of_not_over (b : Board) (n : Nat) (h : isGameOver b = false) :
    ∃ m, m ∈ legalMoves b ∧
      make_moves b n = ⟨(Board.push m b).1,
        [("move", [("from", pySlice m.uci 0 2), ("to", pySlice m.uci 2 4),
                   ("promotion", "q")])],
        [.botPlayed m.uci], none⟩ := by
  obtain ⟨m, hmem, hch⟩ :=
    randomChoice_spec (legalMoves b) n (legalMoves_ne_nil_of_not_over b h)
  obtain ⟨hok, _⟩ := legalMoves_push_ok b m hmem
  refine ⟨m, hmem, ?_⟩
  unfold make_moves
  rw [if_neg (by simp [h])]
  rw [hch]
  dsimp only
  rcases hpu : Board.push m b with ⟨b2, e2⟩
  rw [hpu] at hok
  simp only at hok
  subst hok
  rfl

/-! ## Claim theorems -/

/-- C1 (counterexample): with the initial position, the opponent-move
payload `{from: "e2", to: "e5"}` names a move that is NOT in the
legal-move set, yet the handler applies it without any error: nothing is
logged as invalid (the handler logs "Opponent moved"), no
`IllegalMoveError` is raised, and the Position is mutated.  This refutes
"applying m fails with IllegalMoveError ... and P is left unchanged". -/
theorem C1_counterexample :
    Move.mk 12 36 none ∉ legalMoves startBoard ∧
    (on_move initialGState [("from", "e2"), ("to", "e5")]).err = none ∧
    (on_move initialGState [("from", "e2"), ("to", "e5")]).logs =
      [LogMsg.opponentMoved [("from", "e2"), ("to", "e5")]] ∧
    (on_move initialGState [("from", "e2"), ("to", "e5")]).state.chessboard
      ≠ startBoard :=
  ⟨by decide, rfl, rfl, by decide⟩

/-- C1 (amended): the opponent-move handler never lets an exception
escape (every failure is caught and logged), but `apply` performs no
legality check at all: any parsed move whose origin square is occupied is
pushed successfully — mutating the Position — whether or not it is in the
legal-move set. -/
theorem C1_theorem :
    (∀ (s : GState) (payload : List (String × String)),
      (on_move s payload).err = none) ∧
    (∀ (b : Board) (m : Move), (pieceAt b.core m.fromSq).isSome = true →
      (Board.push m b).2 = none ∧ (Board.push m b).1 ≠ b) := by
  constructor
  · intro s payload
    unfold on_move
    rcases parsePayloadMove payload with e | m
    · rfl
    · dsimp only
      rcases Board.push m s.chessboard with ⟨b', _ | e⟩ <;> rfl
  · intro b m h
    exact ⟨(push_ok_of_occupied m b h).1, push_ne m b⟩

/-- C1 (witness). -/
theorem C1_witness :
    (Board.push (Move.mk 12 36 none) startBoard).2 = none ∧
    (Board.push (Move.mk 12 36 none) startBoard).1 ≠ startBoard :=
  C1_theorem.2 startBoard (Move.mk 12 36 none) (by decide)

/-- C2 (counterexample): on a malformed position text the board-state
handler logs NOTHING and the `ValueError` propagates out of the handler
(`on_boardstate` has no try/except); only "prior Position retained" and
"turn logic skipped" hold.  This refutes "the error is surfaced only as a
log line (nothing propagates)". -/
theorem C2_counterexample :
    (on_boardstate initialGState "not-a-fen" 0).err.isSome = true ∧
    (on_boardstate initialGState "not-a-fen" 0).logs = [] ∧
    (on_boardstate initialGState "not-a-fen" 0).emitted = [] ∧
    (on_boardstate initialGState "not-a-fen" 0).state = initialGState :=
  ⟨rfl, rfl, rfl, rfl⟩

/-- C2 (amended): for every input text that is not a valid serialized
position, the reset step fails with `MalformedPositionError` and that
error propagates out of the handler uncaught (no log line is produced by
the handler); the prior Position is retained unchanged, nothing is
emitted, and the turn logic is skipped for that event. -/
theorem C2_theorem : ∀ (s : GState) (fen : String) (n : Nat) (e : String),
    setFen fen = Except.error e →
    on_boardstate s fen n = ⟨s, [], [], some e⟩ := by
  intro s fen n e he
  unfold on_boardstate
  rw [he]

/-- C2 (witness). -/
theorem C2_witness :
    on_boardstate initialGState "not-a-fen" 0 =
      ⟨initialGState, [], [], some "expected 8 rows in position part of fen"⟩ :=
  C2_theorem initialGState "not-a-fen" 0
    "expected 8 rows in position part of fen" rfl

/-- C3: for every Position (a Position in the spec's sense carries no
move history, i.e. its stacks are empty) and every random draw, the
move-turn sequence logs "Game Over" and does nothing when the Position is
terminal; otherwise it selects a member of the legal-move set, applies it
to the local board, and emits exactly one "move" event whose payload maps
"from" to the move's origin square name, "to" to its destination square
name, and "promotion" unconditionally to "q". -/
theorem C3_theorem : ∀ (b : Board) (n : Nat),
    (isGameOver b = true → make_moves b n = ⟨b, [], [LogMsg.gameOver], none⟩) ∧
    (isGameOver b = false → b.stateStack = [] →
      ∃ m, m ∈ legalMoves b ∧
        make_moves b n = ⟨(Board.push m b).1,
          [("move", [("from", squareName m.fromSq), ("to", squareName m.toSq),
                     ("promotion", "q")])],
          [LogMsg.botPlayed m.uci], none⟩) := by
  intro b n
  constructor
  · exact make_moves_of_over b n
  · intro h hstack
    obtain ⟨m, hmem, heq⟩ := make_moves_of_not_over b n h
    obtain ⟨h1, h2⟩ := uci_slices m (legalMoves_not_null b m hstack hmem)
    exact ⟨m, hmem, by rw [heq, h1, h2]⟩

/-- C3 (witness). -/
theorem C3_witness :
    ∃ m, m ∈ legalMoves startBoard ∧
      make_moves startBoard 0 = ⟨(Board.push m startBoard).1,
        [("move", [("from", squareName m.fromSq), ("to", squareName m.toSq),
                   ("promotion", "q")])],
        [LogMsg.botPlayed m.uci], none⟩ :=
  (C3_theorem startBoard 0).2 (by decide) rfl

/-- C4: whenever the pushed board-state text decodes, the handler
replaces the local Position wholesale with the decoded one and invokes
the move-turn sequence iff the decoded side-to-move equals the assigned
role; when they differ the board is still updated, but nothing is
selected or emitted. -/
theorem C4_theorem : ∀ (s : GState) (fen : String) (n : Nat) (b' : Board),
    setFen fen = Except.ok b' →
    ((s.playerRole = some (if b'.core.turn then "w" else "b") →
        on_boardstate s fen n =
          ⟨⟨(make_moves b' n).chessboard, s.playerRole⟩,
            (make_moves b' n).emitted,
            LogMsg.boardUpdated fen :: (make_moves b' n).logs,
            (make_moves b' n).err⟩) ∧
     (s.playerRole ≠ some (if b'.core.turn then "w" else "b") →
        on_boardstate s fen n =
          ⟨⟨b', s.playerRole⟩, [], [LogMsg.boardUpdated fen], none⟩)) := by
  intro s fen n b' hok
  unfold on_boardstate
  rw [hok]
  dsimp only
  constructor
  · intro hr
    rw [if_pos (by rw [hr]; simp)]
  · intro hr
    rw [if_neg (by simpa using hr)]

/-- C4 (witness). -/
theorem C4_witness :
    on_boardstate ⟨startBoard, some "b"⟩
        "rnbqkbnr/pppppppp/8/8/8/8/PPPPPPPP/RNBQKBNR w KQkq - 0 1" 0 =
      ⟨⟨startBoard, some "b"⟩, [],
        [LogMsg.boardUpdated
          "rnbqkbnr/pppppppp/8/8/8/8/PPPPPPPP/RNBQKBNR w KQkq - 0 1"], none⟩ :=
  (C4_theorem ⟨startBoard, some "b"⟩
      "rnbqkbnr/pppppppp/8/8/8/8/PPPPPPPP/RNBQKBNR w KQkq - 0 1" 0 startBoard
      (by rfl)).2 (by decide)

/-- C5 (code_bug): the script never binds any event to a handler — the
module defines the handler functions but contains no `@sio.event`
decorator and no `sio.on(...)` call, so the client's registration table
stays empty and a server push dispatches to no handler.  The spec's
claimed startup wiring does not exist in the code. -/
theorem C5_theorem :
    sioScript.handlers = [] ∧
    ∀ event : String, dispatchHandler sioScript event = none :=
  ⟨rfl, fun _ => rfl⟩

/-- C6: a legal move always applies successfully and flips the side to
move. -/
theorem C6_theorem : ∀ (b : Board) (m : Move), m ∈ legalMoves b →
    (Board.push m b).2 = none ∧
    (Board.push m b).1.core.turn = !b.core.turn :=
  fun b m h => legalMoves_push_ok b m h

/-- C6 (witness). -/
theorem C6_witness :
    (Board.push (Move.mk 12 28 none) startBoard).2 = none ∧
    (Board.push (Move.mk 12 28 none) startBoard).1.core.turn
      = !startBoard.core.turn :=
  C6_theorem startBoard (Move.mk 12 28 none) (by decide)

/-- C7: the random selection is never invoked on an empty sequence — a
non-terminal Position always has a non-empty legal-move list (the
game-over disjunction contains exactly the no-legal-move case), and
`make_moves` never raises: the empty-choice branch (and the push failure
branch) are unreachable for every Position and every draw. -/
theorem C7_theorem : ∀ (b : Board) (n : Nat),
    (isGameOver b = false → legalMoves b ≠ []) ∧
    (make_moves b n).err = none := by
  intro b n
  refine ⟨legalMoves_ne_nil_of_not_over b, ?_⟩
  rcases hg : isGameOver b
  · obtain ⟨m, _, heq⟩ := make_moves_of_not_over b n hg
    rw [heq]
  · rw [make_moves_of_over b n hg]

/-- C7 (witness). -/
theorem C7_witness :
    legalMoves startBoard ≠ [] ∧ (make_moves startBoard 0).err = none :=
  ⟨(C7_theorem startBoard 0).1 (by decide), (C7_theorem startBoard 0).2⟩

/-- C8: serializing the initial Position and resetting from that text
yields a Position equal (structurally, hence also in python-chess's
`__eq__` sense) to the initial Position. -/
theorem C8_theorem : setFen (Board.fen startBoard) = Except.ok startBoard := by
  rfl

/-- C9 (counterexample): two role-assignment events in a row reassign the
Role — after `playerRole "w"` the Role is `"w"`, and a later
`playerRole "b"` changes it to `"b"`.  This refutes "once assigned, no
later event changes it". -/
theorem C9_counterexample :
    (step initialGState (SEvent.playerRole "w")).state.playerRole = some "w" ∧
    (step (step initialGState (SEvent.playerRole "w")).state
        (SEvent.playerRole "b")).state.playerRole = some "b" ∧
    ("w" : String) ≠ "b" :=
  ⟨rfl, rfl, by decide⟩

/-- C9 (amended): no handler other than the role-assignment handler ever
modifies the Role, and the role-assignment handler unconditionally
overwrites it with the event payload (last write wins); the
assigned-once/terminal property therefore holds only under the
environmental assumption that the server sends at most one role event. -/
theorem C9_theorem : ∀ (s : GState) (e : SEvent) (r : String),
    ((∀ r', e ≠ SEvent.playerRole r') →
      (step s e).state.playerRole = s.playerRole) ∧
    (step s (SEvent.playerRole r)).state.playerRole = some r := by
  intro s e r
  constructor
  · intro hne
    cases e
    case playerRole r' => exact absurd rfl (hne r')
    case connected => rfl
    case connectionFailed => rfl
    case disconnected => rfl
    case spectator => rfl
    case opponentMove p =>
      show (on_move s p).state.playerRole = s.playerRole
      unfold on_move
      rcases parsePayloadMove p with e2 | m
      · rfl
      · dsimp only
        rcases Board.push m s.chessboard with ⟨b', _ | e2⟩ <;> rfl
    case boardState fen n =>
      show (on_boardstate s fen n).state.playerRole = s.playerRole
      unfold on_boardstate
      rcases setFen fen with e2 | b'
      · rfl
      · dsimp only
        split <;> split <;> rfl
  · rfl

/-- C9 (witness). -/
theorem C9_witness :
    (step initialGState (SEvent.boardState "x" 0)).state.playerRole
      = initialGState.playerRole ∧
    (step initialGState (SEvent.playerRole "w")).state.playerRole = some "w" :=
  ⟨(C9_theorem initialGState (SEvent.boardState "x" 0) "w").1
      (fun _ h => SEvent.noConfusion h),
   (C9_theorem initialGState (SEvent.boardState "x" 0) "w").2⟩

/-- C10 (counterexample): the payload `{from: "e3", to: "e4"}` on the
initial position parses but names an empty origin square; the failure is
caught and logged, yet it does NOT occur before the board mutation: the
half-move clock (and the stacks) were already updated inside `push` when
the assert fired, so the Position is not left exactly as it was. -/
theorem C10_counterexample :
    (on_move initialGState [("from", "e3"), ("to", "e4")]).err = none ∧
    (on_move initialGState [("from", "e3"), ("to", "e4")]).logs =
      [LogMsg.invalidMoveReceived [("from", "e3"), ("to", "e4")]
        "AssertionError: push() expects move to be pseudo-legal"] ∧
    (on_move initialGState
      [("from", "e3"), ("to", "e4")]).state.chessboard.core.halfmoveClock = 1 ∧
    startBoard.core.halfmoveClock = 0 ∧
    (on_move initialGState [("from", "e3"), ("to", "e4")]).state.chessboard
      ≠ startBoard :=
  ⟨rfl, rfl, rfl, rfl, by decide⟩

/-- C10 (amended): the opponent-move handler is total — every exception
from any payload is caught and logged — and failures in the key lookup or
move parsing do leave the Position exactly unchanged; but when the move
parses, the handler's board is whatever `push` left behind, including the
partial mutations (clocks, stacks, en-passant reset) a `push` that raises
on an empty origin square has already performed. -/
theorem C10_theorem : ∀ (s : GState) (payload : List (String × String)),
    (on_move s payload).err = none ∧
    (∀ e, parsePayloadMove payload = Except.error e →
      (on_move s payload).state = s) ∧
    (∀ m, parsePayloadMove payload = Except.ok m →
      (on_move s payload).state.chessboard = (Board.push m s.chessboard).1) := by
  intro s payload
  refine ⟨?_, ?_, ?_⟩
  · unfold on_move
    rcases parsePayloadMove payload with e | m
    · rfl
    · dsimp only
      rcases Board.push m s.chessboard with ⟨b', _ | e⟩ <;> rfl
  · intro e he
    unfold on_move
    rw [he]
  · intro m hm
    unfold on_move
    rw [hm]
    dsimp only
    rcases hpu : Board.push m s.chessboard with ⟨b', e?⟩
    rcases e? with _ | e <;> rfl

/-- C10 (witness). -/
theorem C10_witness :
    (on_move initialGState []).err = none ∧
    (on_move initialGState []).state = initialGState :=
  ⟨(C10_theorem initialGState []).1,
   (C10_theorem initialGState []).2.1 "KeyError: from" rfl⟩

end DeepMindChess
